import Mathlib

/-!
Verification development for the mozolm character-level language-model
server.  The repository ships its tests, public headers and entry points;
where an implementation body is absent, the corresponding definition below
is modelled from the specification and marked as such in its doc comment.
All machine-level strings are embedded as lists (bytes as `Nat` below 256,
text as `List Char`), probabilities as rationals.
-/

namespace Mozolm

/-! ## Codepoint segmenter (utf8_util) -/

/-- Modelled from the spec: the UTF-8 encoder for a single Unicode scalar
value (the implementation of `mozolm/utf8_util.h` is not in the tree; the
contract in §4.1 of the spec describes tokens as the byte encodings of
single scalar values).  Standard UTF-8: one byte below 0x80, two below
0x800, three below 0x10000, four otherwise. -/
def utf8EncodeChar (c : Nat) : List Nat :=
  if c < 0x80 then [c]
  else if c < 0x800 then [0xC0 + c / 64, 0x80 + c % 64]
  else if c < 0x10000 then
    [0xE0 + c / 4096, 0x80 + c / 64 % 64, 0x80 + c % 64]
  else
    [0xF0 + c / 262144, 0x80 + c / 4096 % 64, 0x80 + c / 64 % 64,
     0x80 + c % 64]

/-- A valid Unicode scalar value: below 0x110000 and not a surrogate. -/
def ValidScalar (c : Nat) : Prop := c < 0x110000 ∧ (c < 0xD800 ∨ 0xE000 ≤ c)

instance (c : Nat) : Decidable (ValidScalar c) := by
  unfold ValidScalar; infer_instance

/-- Number of bytes of the UTF-8 sequence announced by its leading byte;
0 for a byte that cannot lead a sequence. -/
def leadLen (b : Nat) : Nat :=
  if b < 0x80 then 1
  else if b < 0xC0 then 0
  else if b < 0xE0 then 2
  else if b < 0xF0 then 3
  else if b < 0xF8 then 4
  else 0

/-- Modelled from the spec: the codepoint segmenter `StrSplitByChar`
(§4.1; only `utf8_util_test.cc` is in the tree).  Splits a byte string
into per-scalar-value tokens by reading each leading byte, failing
(`none`, the EncodingError of the spec) on a byte that cannot lead a
sequence or on a truncated multi-byte sequence.  Fuel-indexed for
structural termination; one unit of fuel is spent per token. -/
def strSplitByCharAux : Nat → List Nat → Option (List (List Nat))
  | _, [] => some []
  | 0, _ :: _ => none
  | fuel + 1, b :: rest =>
    let n := leadLen b
    if n = 0 then none
    else if rest.length + 1 < n then none
    else
      match strSplitByCharAux fuel (rest.drop (n - 1)) with
      | none => none
      | some ts => some ((b :: rest.take (n - 1)) :: ts)

/-- The segmenter on a whole byte string: fuel bounded by the length. -/
def strSplitByChar (s : List Nat) : Option (List (List Nat)) :=
  strSplitByCharAux s.length s

/-- The encoding of a valid scalar is non-empty and its leading byte
announces exactly its length. -/
theorem utf8EncodeChar_lead {c : Nat} (h : ValidScalar c) :
    ∃ b tail, utf8EncodeChar c = b :: tail ∧ leadLen b = tail.length + 1 := by
  obtain ⟨hlt, -⟩ := h
  unfold utf8EncodeChar
  by_cases h1 : c < 0x80
  · refine ⟨c, [], by simp [h1], ?_⟩
    simp [leadLen, h1]
  · by_cases h2 : c < 0x800
    · refine ⟨0xC0 + c / 64, [0x80 + c % 64], by simp [h1, h2], ?_⟩
      have hlo : 2 ≤ c / 64 := Nat.le_div_iff_mul_le (by norm_num) |>.mpr (by omega)
      have hhi : c / 64 < 32 := Nat.div_lt_of_lt_mul (by omega)
      unfold leadLen
      rw [if_neg (by omega), if_neg (by omega), if_pos (by omega)]
      simp
    · by_cases h3 : c < 0x10000
      · refine ⟨0xE0 + c / 4096, [0x80 + c / 64 % 64, 0x80 + c % 64],
          by simp [h1, h2, h3], ?_⟩
        have hhi : c / 4096 < 16 := Nat.div_lt_of_lt_mul (by omega)
        unfold leadLen
        rw [if_neg (by omega), if_neg (by omega), if_neg (by omega),
          if_pos (by omega)]
        simp
      · refine ⟨0xF0 + c / 262144,
          [0x80 + c / 4096 % 64, 0x80 + c / 64 % 64, 0x80 + c % 64],
          by simp [h1, h2, h3], ?_⟩
        have hhi : c / 262144 < 5 := Nat.div_lt_of_lt_mul (by omega)
        unfold leadLen
        rw [if_neg (by omega), if_neg (by omega), if_neg (by omega),
          if_neg (by omega), if_pos (by omega)]
        simp

/-- Splitting off one correctly-encoded scalar from the front. -/
theorem strSplitByCharAux_cons {c : Nat} (h : ValidScalar c)
    (fuel : Nat) (rest : List Nat) :
    strSplitByCharAux (fuel + 1) (utf8EncodeChar c ++ rest) =
      match strSplitByCharAux fuel rest with
      | none => none
      | some ts => some (utf8EncodeChar c :: ts) := by
  obtain ⟨b, tail, henc, hlen⟩ := utf8EncodeChar_lead h
  rw [henc]
  show strSplitByCharAux (fuel + 1) (b :: (tail ++ rest)) = _
  conv_lhs => rw [strSplitByCharAux]
  simp only [hlen, Nat.add_sub_cancel]
  rw [if_neg (by omega),
    if_neg (by simp only [List.length_append]; omega)]
  rw [List.drop_left, List.take_left]

/-- With fuel at least the byte length, the segmenter recovers exactly
the per-scalar tokens of a concatenation of valid encodings. -/
theorem strSplitByCharAux_flatten (cs : List Nat)
    (hv : ∀ c ∈ cs, ValidScalar c) :
    ∀ fuel, (cs.map utf8EncodeChar).flatten.length ≤ fuel →
    strSplitByCharAux fuel (cs.map utf8EncodeChar).flatten =
      some (cs.map utf8EncodeChar) := by
  induction cs with
  | nil =>
    intro fuel _
    cases fuel <;> rfl
  | cons c cs ih =>
    intro fuel hfuel
    have hc : ValidScalar c := hv c (by simp)
    have hcs : ∀ x ∈ cs, ValidScalar x := fun x hx => hv x (by simp [hx])
    obtain ⟨b, tail, henc, -⟩ := utf8EncodeChar_lead hc
    have hpos : 1 ≤ (utf8EncodeChar c).length := by rw [henc]; simp
    have hflat : ((c :: cs).map utf8EncodeChar).flatten =
        utf8EncodeChar c ++ (cs.map utf8EncodeChar).flatten := by
      simp
    rw [hflat] at hfuel ⊢
    have hlen : (utf8EncodeChar c).length +
        (cs.map utf8EncodeChar).flatten.length ≤ fuel := by
      simpa [List.length_append] using hfuel
    obtain ⟨f, rfl⟩ : ∃ f, fuel = f + 1 := ⟨fuel - 1, by omega⟩
    rw [strSplitByCharAux_cons hc f]
    rw [ih hcs f (by omega)]
    simp

/-! ## Distributions, the model hub and the protocol operations -/

/-- A symbol of the model alphabet: a character or the reserved
end-of-sequence marker. -/
inductive Sym where
  | eos : Sym
  | chr : Char → Sym
deriving DecidableEq, BEq

/-- Modelled from the spec: the Model Hub (§4.3; `client_helper.cc`,
`model_hub.cc` and the model backends are not in the tree).  Explicit
state passing: `dist` is the combined next-symbol distribution for a
context, `advance` forwards an observed character to the adaptive
backends and yields the updated hub state. -/
structure HubModel (S : Type) where
  dist : S → List Char → List (Sym × ℚ)
  advance : S → List Char → Char → S

/-- Draw one element from a weighted list using a number `r` from the
randomness source: walk the cumulative sums, returning the last element
when the mass is exhausted.  `none` only on an empty list. -/
def drawFrom {α : Type} (r : ℚ) : List (α × ℚ) → Option α
  | [] => none
  | [(a, _)] => some a
  | (a, p) :: x :: l => if r < p then some a else drawFrom (r - p) (x :: l)

/-- The drawn element always comes from the list. -/
theorem drawFrom_mem {α : Type} {r : ℚ} {l : List (α × ℚ)} {a : α}
    (h : drawFrom r l = some a) : a ∈ l.map Prod.fst := by
  induction l generalizing r with
  | nil => simp [drawFrom] at h
  | cons x l ih =>
    obtain ⟨b, p⟩ := x
    cases l with
    | nil =>
      simp only [drawFrom] at h
      cases h
      simp
    | cons y l =>
      simp only [drawFrom] at h
      by_cases hr : r < p
      · rw [if_pos hr] at h
        cases h
        simp
      · rw [if_neg hr] at h
        simp only [List.map_cons]
        exact List.mem_cons_of_mem _ (ih h)

/-- A non-empty weighted list always yields a draw. -/
theorem drawFrom_isSome {α : Type} (r : ℚ) (l : List (α × ℚ))
    (h : l ≠ []) : ∃ a, drawFrom r l = some a := by
  induction l generalizing r with
  | nil => exact absurd rfl h
  | cons x l ih =>
    cases l with
    | nil => exact ⟨x.1, by simp [drawFrom]⟩
    | cons y l =>
      by_cases hr : r < x.2
      · exact ⟨x.1, by simp [drawFrom, hr]⟩
      · obtain ⟨a, ha⟩ := ih (r - x.2) (by simp)
        exact ⟨a, by simp [drawFrom, hr, ha]⟩

/-- Insertion into a list sorted by the boolean order `le`. -/
def insertSorted {α : Type} (le : α → α → Bool) (a : α) : List α → List α
  | [] => [a]
  | b :: l => if le a b then a :: b :: l else b :: insertSorted le a l

/-- Insertion sort by the boolean order `le`. -/
def sortBy {α : Type} (le : α → α → Bool) : List α → List α
  | [] => []
  | a :: l => insertSorted le a (sortBy le l)

theorem mem_insertSorted {α : Type} (le : α → α → Bool) (a x : α)
    (l : List α) : x ∈ insertSorted le a l ↔ x = a ∨ x ∈ l := by
  induction l with
  | nil => simp [insertSorted]
  | cons b l ih =>
    by_cases h : le a b
    · simp [insertSorted, h]
    · simp [insertSorted, h, ih]
      tauto

theorem mem_sortBy {α : Type} (le : α → α → Bool) (x : α) (l : List α) :
    x ∈ sortBy le l ↔ x ∈ l := by
  induction l with
  | nil => simp [sortBy]
  | cons a l ih => simp [sortBy, mem_insertSorted, ih]

theorem length_insertSorted {α : Type} (le : α → α → Bool) (a : α)
    (l : List α) : (insertSorted le a l).length = l.length + 1 := by
  induction l with
  | nil => rfl
  | cons b l ih =>
    by_cases h : le a b <;> simp [insertSorted, h, ih]

theorem length_sortBy {α : Type} (le : α → α → Bool) (l : List α) :
    (sortBy le l).length = l.length := by
  induction l with
  | nil => rfl
  | cons a l ih => simp [sortBy, length_insertSorted, ih]

/-- Modelled from the spec: the fixed deterministic ordering used by
top-k selection (§4.4): probability descending, ties broken by code
point ascending. -/
def topKOrder (a b : Char × ℚ) : Bool :=
  if a.2 = b.2 then decide (a.1.toNat ≤ b.1.toNat) else decide (b.2 < a.2)

/-- Modelled from the spec: the k highest-probability characters of a
distribution under the deterministic ordering (§4.4). -/
def topK (k : Nat) (dist : List (Char × ℚ)) : List (Char × ℚ) :=
  (sortBy topKOrder dist).take k

/-- Modelled from the spec: renormalisation of the probability mass over
a selected sub-distribution (§4.4). -/
def renormalize (l : List (Char × ℚ)) : List (Char × ℚ) :=
  l.map fun p => (p.1, p.2 / (l.map Prod.snd).sum)

/-- The character entries of a hub distribution, the end-of-sequence
symbol removed. -/
def charProbs (l : List (Sym × ℚ)) : List (Char × ℚ) :=
  l.filterMap fun p =>
    match p.1 with
    | Sym.eos => none
    | Sym.chr c => some (c, p.2)

/-- Modelled from the spec: `ClientHelper::OneKbestSample` (§4.4; only
its test is in the tree).  Selects the top k characters of the
distribution, renormalises and draws one, `r` standing for the number
produced by the randomness source. -/
def oneKbestSample (k : Nat) (dist : List (Char × ℚ)) (r : ℚ) :
    Option Char :=
  drawFrom r (renormalize (topK k dist))

theorem renormalize_fst (l : List (Char × ℚ)) :
    (renormalize l).map Prod.fst = l.map Prod.fst := by
  simp [renormalize]

/-- Any successful top-k sample is one of the k selected characters. -/
theorem oneKbestSample_mem {k : Nat} {dist : List (Char × ℚ)} {r : ℚ}
    {c : Char} (h : oneKbestSample k dist r = some c) :
    c ∈ (topK k dist).map Prod.fst := by
  have := drawFrom_mem h
  rwa [renormalize_fst] at this

/-! ## Random generation (ClientHelper::RandGen) -/

/-- Modelled from the spec: the generation loop of `RandGen` (§4.4; only
its tests are in the tree).  Each iteration draws one symbol from the
hub distribution of the working context, stops on the end-of-sequence
symbol (or a degenerate empty distribution), otherwise advances the hub,
appends the character and continues; `cap` is the remaining budget of
the internal generation-length safety cap, `rs` the stream of numbers
from the randomness source. -/
def randGenLoop {S : Type} (M : HubModel S) (rs : Nat → ℚ) :
    Nat → Nat → S → List Char → List Char
  | 0, _, _, _ => []
  | cap + 1, i, s, ctx =>
    match drawFrom (rs i) (M.dist s ctx) with
    | none => []
    | some Sym.eos => []
    | some (Sym.chr c) =>
      c :: randGenLoop M rs cap (i + 1) (M.advance s ctx c) (ctx ++ [c])

/-- `RandGen`: run the loop from the caller's context with the full cap;
the result is the generated continuation only. -/
def randomGenerate {S : Type} (M : HubModel S) (s : S) (rs : Nat → ℚ)
    (cap : Nat) (ctx : List Char) : List Char :=
  randGenLoop M rs cap 0 s ctx

/-- The hub state after observing, one by one, the characters of `out`
appended to `ctx`. -/
def hubAfter {S : Type} (M : HubModel S) : S → List Char → List Char → S
  | s, _, [] => s
  | s, ctx, c :: cs => hubAfter M (M.advance s ctx c) (ctx ++ [c]) cs

/-- The generation loop runs at most `cap` iterations, and when it stops
short of the cap the draw at the stopping point was the end-of-sequence
symbol or the distribution was degenerate — never a character. -/
theorem randGenLoop_bounded {S : Type} (M : HubModel S) (rs : Nat → ℚ) :
    ∀ (cap i : Nat) (s : S) (ctx : List Char),
    (randGenLoop M rs cap i s ctx).length ≤ cap ∧
    ((randGenLoop M rs cap i s ctx).length < cap →
      ∀ c : Char,
        drawFrom (rs (i + (randGenLoop M rs cap i s ctx).length))
            (M.dist (hubAfter M s ctx (randGenLoop M rs cap i s ctx))
              (ctx ++ randGenLoop M rs cap i s ctx)) ≠
          some (Sym.chr c)) := by
  intro cap
  induction cap with
  | zero => intro i s ctx; simp [randGenLoop]
  | succ cap ih =>
    intro i s ctx
    rcases hdraw : drawFrom (rs i) (M.dist s ctx) with - | sym
    · refine ⟨by simp [randGenLoop, hdraw], ?_⟩
      intro _ c
      simp [randGenLoop, hdraw, hubAfter]
    · cases sym with
      | eos =>
        refine ⟨by simp [randGenLoop, hdraw], ?_⟩
        intro _ c
        simp [randGenLoop, hdraw, hubAfter]
      | chr c0 =>
        have hrec := ih (i + 1) (M.advance s ctx c0) (ctx ++ [c0])
        have hout : randGenLoop M rs (cap + 1) i s ctx =
            c0 :: randGenLoop M rs cap (i + 1) (M.advance s ctx c0)
              (ctx ++ [c0]) := by
          simp [randGenLoop, hdraw]
        rw [hout]
        refine ⟨by simpa using hrec.1, ?_⟩
        intro hlen c
        have hlen2 : (randGenLoop M rs cap (i + 1) (M.advance s ctx c0)
            (ctx ++ [c0])).length < cap := by simpa using hlen
        have := hrec.2 hlen2 c
        simpa [hubAfter, List.append_assoc, Nat.add_comm, Nat.add_assoc,
          Nat.add_left_comm] using this

/-! ## Corpus entropy (ClientHelper::CalcBitsPerCharacter) -/

/-- Error kinds surfaced by the client-side protocol operations. -/
inductive ClientError where
  | ioError
  | emptySource
deriving DecidableEq

/-- Probability a hub distribution assigns to one symbol. -/
def probOf (x : Sym) (l : List (Sym × ℚ)) : ℚ :=
  ((l.filter fun p => p.1 == x).map Prod.snd).sum

/-- Modelled from the spec: the scoring sweep of `CalcBitsPerCharacter`
(§4.4; only its test is in the tree).  Walks the text left to right,
looks up the probability of each character under the distribution of
its preceding context, accumulates its negated base-2 logarithm and
advances the hub with the true character.  The real logarithm of the
implementation is abstracted as the parameter `neglog` (standing for
p ↦ −log2 p), which the claims under proof never need to evaluate.
Returns the accumulated total and the number of characters scored. -/
def scoreChars {S : Type} (M : HubModel S) (neglog : ℚ → ℚ) :
    S → List Char → List Char → ℚ × Nat
  | _, _, [] => (0, 0)
  | s, h, c :: rest =>
    let p := probOf (Sym.chr c) (M.dist s h)
    let t := scoreChars M neglog (M.advance s h c) (h ++ [c]) rest
    (neglog p + t.1, t.2 + 1)

/-- Modelled from the spec: `ClientHelper::CalcBitsPerCharacter` (§4.4).
An unreadable source (`none`) is an input/output error; a source with
zero characters scored is a defined error rather than a division by
zero; otherwise the accumulated bits divided by the character count. -/
def calcBitsPerCharacter {S : Type} (M : HubModel S) (neglog : ℚ → ℚ)
    (s : S) (source : Option (List Char)) : Except ClientError ℚ :=
  match source with
  | none => Except.error ClientError.ioError
  | some [] => Except.error ClientError.emptySource
  | some text =>
    let t := scoreChars M neglog s [] text
    Except.ok (t.1 / t.2)

/-- The scoring sweep counts exactly the characters of the text. -/
theorem scoreChars_count {S : Type} (M : HubModel S) (neglog : ℚ → ℚ) :
    ∀ (text : List Char) (s : S) (h : List Char),
    (scoreChars M neglog s h text).2 = text.length := by
  intro text
  induction text with
  | nil => intro s h; rfl
  | cons c rest ih =>
    intro s h
    simp [scoreChars, ih]

/-! ## Channel / auth negotiator -/

/-- Transport endpoint: TCP `host:port` or a local filesystem socket. -/
inductive Transport where
  | tcp : String → Transport
  | uds : String → Transport
deriving DecidableEq

/-- An abstract certificate: the subject name it certifies and the name
of the certificate authority that signed it. -/
structure Cert where
  subject : String
  issuer : String
deriving DecidableEq

/-- Credential modes of the configuration surface. -/
inductive CredentialType where
  | insecure
  | ssl
deriving DecidableEq

/-- Server-side auth configuration (`ServerAuthConfig` of the proto
surface): credential type, server key and certificate, whether to verify
clients and the custom certificate-authority name, `""` meaning unset. -/
structure ServerAuthCfg where
  credential_type : CredentialType
  server_key : String
  server_cert : Option Cert
  client_verify : Bool
  custom_ca_cert : String
deriving DecidableEq

/-- Client-side auth configuration (`ClientAuthConfig` of the proto
surface); `""` / `none` meaning unset. -/
structure ClientAuthCfg where
  target_name_override : String
  client_cert : Option Cert
  client_key : String
deriving DecidableEq

/-- Errors of the negotiator. -/
inductive NegError where
  | networkError
  | authError
deriving DecidableEq

/-- States of the per-connection negotiation state machine (§4.5). -/
inductive NegState where
  | unconnected
  | transportEstablished
  | credentialNegotiated
  | ready
  | failed : NegError → NegState
deriving DecidableEq

/-- The name the client checks the server certificate against: the
`target_name_override` when set, otherwise the connection address. -/
def effectiveTargetName (ca : ClientAuthCfg) (t : Transport) : String :=
  if ca.target_name_override ≠ "" then ca.target_name_override
  else
    match t with
    | Transport.tcp host => host
    | Transport.uds path => path

/-- Modelled from the spec: the credential-negotiation predicate (§4.5;
the gRPC channel construction of `server_helper.cc` /
`client_helper.cc` is not in the tree).  Insecure always passes.  Under
SSL the client accepts the server identity iff the server certificate
subject equals the effective target name; with `client_verify` the
server additionally requires a client certificate and key signed by the
configured custom certificate authority. -/
def credentialOk (sa : ServerAuthCfg) (ca : ClientAuthCfg)
    (t : Transport) : Bool :=
  match sa.credential_type with
  | CredentialType.insecure => true
  | CredentialType.ssl =>
    match sa.server_cert with
    | none => false
    | some cert =>
      if cert.subject ≠ effectiveTargetName ca t then false
      else if sa.client_verify then
        match ca.client_cert with
        | none => false
        | some cc =>
          decide (ca.client_key ≠ "") &&
          decide (cc.issuer = sa.custom_ca_cert) &&
          decide (sa.custom_ca_cert ≠ "")
      else true

/-- Modelled from the spec: one transition of the negotiation state
machine (§4.5).  Transport establishment is taken to succeed (the
claims address credential outcomes, not bind failures); `ready` and
`failed` are terminal. -/
def negStep (sa : ServerAuthCfg) (ca : ClientAuthCfg) (t : Transport) :
    NegState → NegState
  | NegState.unconnected => NegState.transportEstablished
  | NegState.transportEstablished =>
    if credentialOk sa ca t then NegState.credentialNegotiated
    else NegState.failed NegError.authError
  | NegState.credentialNegotiated => NegState.ready
  | NegState.ready => NegState.ready
  | NegState.failed e => NegState.failed e

/-- Run one connection attempt from `unconnected` to a terminal or
ready state: three steps of the machine. -/
def negotiate (sa : ServerAuthCfg) (ca : ClientAuthCfg)
    (t : Transport) : NegState :=
  negStep sa ca t (negStep sa ca t (negStep sa ca t NegState.unconnected))

/-- Modelled from the spec: the shape of `AuthEnd2EndTest::BuildAndRun`
(`src/unnamed/part_000`): negotiate the channel and, once ready, serve
one `RandGen` request with the empty context, otherwise surface the
negotiation failure. -/
def buildAndRun {S : Type} (M : HubModel S) (s : S) (rs : Nat → ℚ)
    (cap : Nat) (sa : ServerAuthCfg) (ca : ClientAuthCfg)
    (t : Transport) : Except NegError (List Char) :=
  match negotiate sa ca t with
  | NegState.ready => Except.ok (randomGenerate M s rs cap [])
  | NegState.failed e => Except.error e
  | _ => Except.error NegError.networkError

/-- Shape of `AuthEnd2EndTest::MakeServerSslConfig`
(`src/unnamed/part_000`): SSL credential type with the server
certificate and key filled in and the given client-verification flag;
the custom certificate authority starts unset. -/
def makeServerSslConfig (key : String) (cert : Cert)
    (verify_clients : Bool) : ServerAuthCfg :=
  { credential_type := CredentialType.ssl
    server_key := key
    server_cert := some cert
    client_verify := verify_clients
    custom_ca_cert := "" }

/-! ## Configuration defaults (server_helper / client_helper) -/

/-- Default server address, from `src/mozolm/grpc/server_helper.h`. -/
def kDefaultServerAddress : String := "localhost:50051"

/-- Modelled from the spec: the strictly positive default client
timeout in seconds (the constant's value is not in the tree; the test
only requires positivity). -/
def kDefaultClientTimeoutSec : ℚ := 10

/-- The server portion of a client configuration, restricted to the
fields the configuration claims touch; `""` / `none` meaning unset. -/
structure MServerConfig where
  address_uri : String
  wait_for_clients : Option Bool
deriving DecidableEq

/-- A client configuration: its server part and the request timeout,
`0` (proto default) meaning unset. -/
structure MClientConfig where
  server : MServerConfig
  timeout_sec : ℚ
deriving DecidableEq

/-- The all-unset client configuration. -/
def emptyClientConfig : MClientConfig :=
  { server := { address_uri := "", wait_for_clients := none }
    timeout_sec := 0 }

/-- Modelled from the spec: `InitConfigDefaults` on a client
configuration (declared for the server in
`src/mozolm/grpc/server_helper.h`; the client overload is exercised by
`ClientHelperConfigTest.CheckConfig`).  A pure merge: each parameter is
set to its default only when it has not already been set. -/
def initConfigDefaults (c : MClientConfig) : MClientConfig :=
  { server :=
      { address_uri :=
          if c.server.address_uri = "" then kDefaultServerAddress
          else c.server.address_uri
        wait_for_clients :=
          match c.server.wait_for_clients with
          | none => some true
          | some b => some b }
    timeout_sec :=
      if c.timeout_sec ≤ 0 then kDefaultClientTimeoutSec
      else c.timeout_sec }

/-! ## Server launcher entry point (src/unnamed/part_001) -/

/-- The outcome of `RunServer`, as the `absl::Status` the launcher
inspects: an ok flag and a message. -/
structure AbslStatus where
  ok : Bool
  message : String
deriving DecidableEq

/-- The exit-status decision of `main` in `src/unnamed/part_001`:
return 1 when the `RunServer` status is not ok, else 0. -/
def serverMainExit (status : AbslStatus) : Nat :=
  if !status.ok then 1 else 0

/-! ## Model loading (model hub construction) -/

/-- Model types of the configuration surface exercised by the tests. -/
inductive ModelType where
  | simpleCharBigram
  | charNgramFst
  | ppmAsFst
deriving DecidableEq

/-- Storage locator of a model configuration; `""` meaning unset. -/
structure ModelStorage where
  model_file : String
  vocabulary_file : String
deriving DecidableEq

/-- Errors of backend construction (§4.3). -/
inductive LoadError where
  | ioError
  | configError
deriving DecidableEq

/-- The uniform distribution over an alphabet plus end-of-sequence. -/
def uniformDist (alphabet : List Char) : List (Sym × ℚ) :=
  (Sym.eos :: alphabet.map Sym.chr).map
    fun sym => (sym, 1 / (alphabet.length + 1))

/-- Modelled from the spec: the uniform backend (§4.2), the fallback
the simple character bigram resorts to without data.  Stateless:
`advance` is a no-op. -/
def uniformBackend (alphabet : List Char) : HubModel Unit :=
  { dist := fun _ _ => uniformDist alphabet
    advance := fun _ _ _ => () }

/-- Modelled from the spec and the comment in
`ClientHelperTest::MakeModelConfig`: loading a `SIMPLE_CHAR_BIGRAM`
backend.  With no model file and no vocabulary file it falls back to
uniform distribution estimates and succeeds; with files named, the
external (out-of-scope) loader `loadData` decides, an unreadable
locator surfacing as an input/output error. -/
def loadSimpleCharBigram (alphabet : List Char)
    (loadData : String → String → Option (HubModel Unit))
    (storage : ModelStorage) : Except LoadError (HubModel Unit) :=
  if storage.model_file = "" ∧ storage.vocabulary_file = "" then
    Except.ok (uniformBackend alphabet)
  else
    match loadData storage.model_file storage.vocabulary_file with
    | none => Except.error LoadError.ioError
    | some m => Except.ok m

/-! ## Helper lemmas for the sampling claims -/

theorem renormalize_ne_nil {l : List (Char × ℚ)} (h : l ≠ []) :
    renormalize l ≠ [] := by
  simpa [renormalize] using h

theorem topK_ne_nil {k : Nat} {dist : List (Char × ℚ)} (hk : 0 < k)
    (h : dist ≠ []) : topK k dist ≠ [] := by
  have hlen : (topK k dist).length = min k dist.length := by
    simp [topK, List.length_take, length_sortBy]
  have hpos : 0 < dist.length := List.length_pos.mpr h
  intro hnil
  rw [hnil] at hlen
  simp at hlen
  omega

/-- A top-k sample always succeeds on a non-empty distribution. -/
theorem oneKbestSample_exists {k : Nat} {dist : List (Char × ℚ)}
    (r : ℚ) (hk : 0 < k) (h : dist ≠ []) :
    ∃ c, oneKbestSample k dist r = some c :=
  drawFrom_isSome r _ (renormalize_ne_nil (topK_ne_nil hk h))

/-! ## Concrete objects used by witnesses and counterexamples -/

/-- A hub whose distribution is certain end-of-sequence. -/
def eosOnlyHub : HubModel Unit :=
  { dist := fun _ _ => [(Sym.eos, 1)]
    advance := fun _ _ _ => () }

/-- An insecure server auth configuration. -/
def insecureServerAuth : ServerAuthCfg :=
  { credential_type := CredentialType.insecure
    server_key := ""
    server_cert := none
    client_verify := false
    custom_ca_cert := "" }

/-- A client auth configuration with nothing set. -/
def emptyClientAuth : ClientAuthCfg :=
  { target_name_override := ""
    client_cert := none
    client_key := "" }

/-! ## The claims -/

/-- C4: for every valid UTF-8 input string — the concatenation of the
encodings of a sequence of Unicode scalar values — the codepoint
segmenter `StrSplitByChar` returns exactly the ordered sequence of those
scalar values' encodings, one token per scalar value (so combining
marks, being scalar values of their own, come out as separate tokens),
and concatenating the tokens in order reconstructs the input. -/
theorem claim_C4_str_split_by_char (s : List Nat) (cs : List Nat)
    (hv : ∀ c ∈ cs, ValidScalar c)
    (hs : s = (cs.map utf8EncodeChar).flatten) :
    ∃ ts, strSplitByChar s = some ts ∧ ts = cs.map utf8EncodeChar ∧
      ts.flatten = s := by
  subst hs
  exact ⟨cs.map utf8EncodeChar,
    strSplitByCharAux_flatten cs hv _ le_rfl, rfl, rfl⟩

/-- Witness for C4 at the three-scalar input `a`, U+05D0, U+1F600 —
ASCII, two-byte and four-byte sequences, split and reassembled. -/
theorem claim_C4_str_split_by_char_witness :
    ∃ ts, strSplitByChar
        (([0x61, 0x5D0, 0x1F600].map utf8EncodeChar).flatten) = some ts ∧
      ts = [0x61, 0x5D0, 0x1F600].map utf8EncodeChar ∧
      ts.flatten = ([0x61, 0x5D0, 0x1F600].map utf8EncodeChar).flatten :=
  claim_C4_str_split_by_char _ [0x61, 0x5D0, 0x1F600] (by decide) rfl

/-- C5: for every hub, context and k > 0 (given that the distribution
for the context carries at least one character), `OneKbestSample`
succeeds, the returned character is one of the k highest-probability
characters of the distribution of that same context under the fixed
deterministic ordering, and the result is a non-empty single-character
string. -/
theorem claim_C5_one_kbest_sample {S : Type} (M : HubModel S) (s : S)
    (ctx : List Char) (k : Nat) (r : ℚ) (hk : 0 < k)
    (hne : charProbs (M.dist s ctx) ≠ []) :
    ∃ c, oneKbestSample k (charProbs (M.dist s ctx)) r = some c ∧
      c ∈ (topK k (charProbs (M.dist s ctx))).map Prod.fst ∧
      String.mk [c] ≠ "" ∧ (String.mk [c]).length = 1 := by
  obtain ⟨c, hc⟩ := oneKbestSample_exists r hk hne
  refine ⟨c, hc, oneKbestSample_mem hc, ?_, rfl⟩
  intro h
  simpa using congrArg String.data h

/-- Witness for C5: sampling the 1-best character of a two-character
uniform hub. -/
theorem claim_C5_one_kbest_sample_witness :
    ∃ c, oneKbestSample 1
        (charProbs ((uniformBackend [Char.ofNat 97, Char.ofNat 98]).dist
          () [])) 0 = some c ∧
      c ∈ (topK 1 (charProbs ((uniformBackend
          [Char.ofNat 97, Char.ofNat 98]).dist () []))).map Prod.fst ∧
      String.mk [c] ≠ "" ∧ (String.mk [c]).length = 1 :=
  claim_C5_one_kbest_sample (uniformBackend [Char.ofNat 97, Char.ofNat 98])
    () [] 1 0 (by decide) (by decide)

/-- C6: `CalcBitsPerCharacter` on a readable non-empty source succeeds
with the accumulated negated base-2 log probability divided by the
number of characters scored; on a source with zero characters it fails
with the defined empty-source error rather than dividing by zero; on an
unreadable source it fails with an input/output error. -/
theorem claim_C6_calc_bits_per_character {S : Type} (M : HubModel S)
    (neglog : ℚ → ℚ) (s : S) (text : List Char) (h : text ≠ []) :
    calcBitsPerCharacter M neglog s (some text) =
      Except.ok ((scoreChars M neglog s [] text).1 / text.length) ∧
    calcBitsPerCharacter M neglog s (some []) =
      Except.error ClientError.emptySource ∧
    calcBitsPerCharacter M neglog s none =
      Except.error ClientError.ioError := by
  refine ⟨?_, rfl, rfl⟩
  match text, h with
  | c :: rest, _ =>
    simp [calcBitsPerCharacter, scoreChars_count]

/-- Witness for C6 at a two-character text over the one-character
uniform hub. -/
theorem claim_C6_calc_bits_per_character_witness :
    calcBitsPerCharacter (uniformBackend [Char.ofNat 97]) id ()
        (some [Char.ofNat 97, Char.ofNat 98]) =
      Except.ok ((scoreChars (uniformBackend [Char.ofNat 97]) id ()
        [] [Char.ofNat 97, Char.ofNat 98]).1 /
        ([Char.ofNat 97, Char.ofNat 98] : List Char).length) ∧
    calcBitsPerCharacter (uniformBackend [Char.ofNat 97]) id ()
        (some []) = Except.error ClientError.emptySource ∧
    calcBitsPerCharacter (uniformBackend [Char.ofNat 97]) id () none =
      Except.error ClientError.ioError :=
  claim_C6_calc_bits_per_character (uniformBackend [Char.ofNat 97]) id ()
    [Char.ofNat 97, Char.ofNat 98] (by decide)

/-- C7: for every hub, context, cap and randomness stream the
`RandomGenerate` loop runs at most `cap` iterations — each iteration
draws one symbol, advances the hub and appends the drawn character to
the working context — and when it stops short of the cap, the draw at
the stopping point was not a character: the end-of-sequence symbol was
drawn (or the distribution was degenerate). -/
theorem claim_C7_random_generate_terminates {S : Type} (M : HubModel S)
    (s : S) (rs : Nat → ℚ) (cap : Nat) (ctx : List Char) :
    (randomGenerate M s rs cap ctx).length ≤ cap ∧
    ((randomGenerate M s rs cap ctx).length < cap →
      ∀ c : Char,
        drawFrom (rs (randomGenerate M s rs cap ctx).length)
            (M.dist (hubAfter M s ctx (randomGenerate M s rs cap ctx))
              (ctx ++ randomGenerate M s rs cap ctx)) ≠
          some (Sym.chr c)) := by
  have := randGenLoop_bounded M rs cap 0 s ctx
  simpa [randomGenerate] using this

/-- Witness for C7: the end-of-sequence-only hub stops immediately,
within the cap of 5. -/
theorem claim_C7_random_generate_terminates_witness :
    (randomGenerate eosOnlyHub () (fun _ => 0) 5 []).length ≤ 5 :=
  (claim_C7_random_generate_terminates eosOnlyHub () (fun _ => 0) 5 []).1

/-- C8: the default-filling step on a wholly unset client configuration
fills in the server address `localhost:50051`, sets `wait_for_clients`
to true and a strictly positive timeout; and on a configuration whose
parameters are all already set it changes nothing. -/
theorem claim_C8_init_config_defaults (c : MClientConfig) (b : Bool)
    (h1 : c.server.address_uri ≠ "")
    (h2 : c.server.wait_for_clients = some b)
    (h3 : 0 < c.timeout_sec) :
    ((initConfigDefaults emptyClientConfig).server.address_uri =
        kDefaultServerAddress ∧
      (initConfigDefaults emptyClientConfig).server.wait_for_clients =
        some true ∧
      0 < (initConfigDefaults emptyClientConfig).timeout_sec) ∧
    initConfigDefaults c = c := by
  constructor
  · refine ⟨rfl, rfl, ?_⟩
    show (0 : ℚ) < kDefaultClientTimeoutSec
    norm_num [kDefaultClientTimeoutSec]
  · obtain ⟨⟨addr, wfc⟩, ts⟩ := c
    simp only [MServerConfig.mk.injEq] at h2 ⊢
    simp [initConfigDefaults, h1, h2, not_le.mpr h3]

/-- Witness for C8 at a fully set configuration. -/
theorem claim_C8_init_config_defaults_witness :
    ((initConfigDefaults emptyClientConfig).server.address_uri =
        kDefaultServerAddress ∧
      (initConfigDefaults emptyClientConfig).server.wait_for_clients =
        some true ∧
      0 < (initConfigDefaults emptyClientConfig).timeout_sec) ∧
    initConfigDefaults
        { server := { address_uri := "example.org:50052"
                      wait_for_clients := some false }
          timeout_sec := 5 } =
      { server := { address_uri := "example.org:50052"
                    wait_for_clients := some false }
        timeout_sec := 5 } :=
  claim_C8_init_config_defaults
    { server := { address_uri := "example.org:50052"
                  wait_for_clients := some false }
      timeout_sec := 5 } false (by decide) rfl (by norm_num)

/-- C9: the server launcher entry point maps the `RunServer` status to
a boolean-equivalent exit code: 1 whenever the status is not ok, 0
exactly when the server ran successfully — a failed launch never exits
with the success code. -/
theorem claim_C9_server_main_exit (status : AbslStatus) :
    (status.ok = false → serverMainExit status = 1) ∧
    (status.ok = true → serverMainExit status = 0) ∧
    (serverMainExit status = 0 ↔ status.ok = true) := by
  cases hok : status.ok <;> simp [serverMainExit, hok]

/-- Witness for C9: a failed launch exits with status 1. -/
theorem claim_C9_server_main_exit_witness :
    serverMainExit { ok := false, message := "launch failed" } = 1 :=
  (claim_C9_server_main_exit
    { ok := false, message := "launch failed" }).1 rfl

/-- C1: under mutual TLS (SSL with client verification) a connection
attempt in which the client supplies no certificate fails with an
authentication error even though the target-name override matches the
server certificate subject; and once the server is given the custom
certificate-authority certificate and the client supplies a certificate
and key signed by that authority, the same attempt reaches ready and
serves a `RandGen` request. -/
theorem claim_C1_mutual_tls (skey ckey caName ov : String)
    (srvCert cliCert : Cert) (t : Transport) {S : Type} (M : HubModel S)
    (s0 : S) (rs : Nat → ℚ) (cap : Nat) (hov : ov ≠ "")
    (hsub : srvCert.subject = ov) (hiss : cliCert.issuer = caName)
    (hca : caName ≠ "") (hkey : ckey ≠ "") :
    (negotiate (makeServerSslConfig skey srvCert true)
        { target_name_override := ov, client_cert := none,
          client_key := "" } t =
      NegState.failed NegError.authError) ∧
    (negotiate
        { makeServerSslConfig skey srvCert true with
            custom_ca_cert := caName }
        { target_name_override := ov, client_cert := some cliCert,
          client_key := ckey } t =
      NegState.ready) ∧
    (buildAndRun M s0 rs cap
        { makeServerSslConfig skey srvCert true with
            custom_ca_cert := caName }
        { target_name_override := ov, client_cert := some cliCert,
          client_key := ckey } t =
      Except.ok (randomGenerate M s0 rs cap [])) := by
  have hneg2 : negotiate
      { makeServerSslConfig skey srvCert true with
          custom_ca_cert := caName }
      { target_name_override := ov, client_cert := some cliCert,
        client_key := ckey } t = NegState.ready := by
    simp [negotiate, negStep, credentialOk, makeServerSslConfig,
      effectiveTargetName, hov, hsub, hiss, hca, hkey]
  refine ⟨?_, hneg2, ?_⟩
  · simp [negotiate, negStep, credentialOk, makeServerSslConfig,
      effectiveTargetName, hov, hsub]
  · simp [buildAndRun, hneg2]

/-- Witness for C1 with concrete certificates: subject `srv`, a client
certificate issued by `testca`, over TCP. -/
theorem claim_C1_mutual_tls_witness :
    (negotiate
        (makeServerSslConfig "skey" { subject := "srv", issuer := "root" }
          true)
        { target_name_override := "srv", client_cert := none,
          client_key := "" } (Transport.tcp "localhost:2345") =
      NegState.failed NegError.authError) ∧
    (negotiate
        { makeServerSslConfig "skey"
            { subject := "srv", issuer := "root" } true with
            custom_ca_cert := "testca" }
        { target_name_override := "srv",
          client_cert := some { subject := "cli", issuer := "testca" },
          client_key := "ckey" } (Transport.tcp "localhost:2345") =
      NegState.ready) ∧
    (buildAndRun eosOnlyHub () (fun _ => 0) 3
        { makeServerSslConfig "skey"
            { subject := "srv", issuer := "root" } true with
            custom_ca_cert := "testca" }
        { target_name_override := "srv",
          client_cert := some { subject := "cli", issuer := "testca" },
          client_key := "ckey" } (Transport.tcp "localhost:2345") =
      Except.ok (randomGenerate eosOnlyHub () (fun _ => 0) 3 [])) :=
  claim_C1_mutual_tls "skey" "ckey" "testca" "srv"
    { subject := "srv", issuer := "root" }
    { subject := "cli", issuer := "testca" }
    (Transport.tcp "localhost:2345") eosOnlyHub () (fun _ => 0) 3
    (by decide) rfl rfl (by decide) (by decide)

/-- C2: under server-authenticated TLS (no client verification), when
the connection address does not match the server certificate subject, a
client omitting the target-name override fails with an authentication
error; supplying the matching override reaches ready and completes a
request; and the server performs no validation of the client identity —
the outcome is independent of the client certificate and key. -/
theorem claim_C2_server_tls (skey host : String) (srvCert : Cert)
    {S : Type} (M : HubModel S) (s0 : S) (rs : Nat → ℚ) (cap : Nat)
    (hmis : srvCert.subject ≠ host) (hsub : srvCert.subject ≠ "") :
    (negotiate (makeServerSslConfig skey srvCert false)
        { target_name_override := "", client_cert := none,
          client_key := "" } (Transport.tcp host) =
      NegState.failed NegError.authError) ∧
    (negotiate (makeServerSslConfig skey srvCert false)
        { target_name_override := srvCert.subject, client_cert := none,
          client_key := "" } (Transport.tcp host) =
      NegState.ready) ∧
    (buildAndRun M s0 rs cap (makeServerSslConfig skey srvCert false)
        { target_name_override := srvCert.subject, client_cert := none,
          client_key := "" } (Transport.tcp host) =
      Except.ok (randomGenerate M s0 rs cap [])) ∧
    (∀ cc1 cc2 : ClientAuthCfg,
      cc1.target_name_override = cc2.target_name_override →
      negotiate (makeServerSslConfig skey srvCert false) cc1
          (Transport.tcp host) =
        negotiate (makeServerSslConfig skey srvCert false) cc2
          (Transport.tcp host)) := by
  have hneg2 : negotiate (makeServerSslConfig skey srvCert false)
      { target_name_override := srvCert.subject, client_cert := none,
        client_key := "" } (Transport.tcp host) = NegState.ready := by
    simp [negotiate, negStep, credentialOk, makeServerSslConfig,
      effectiveTargetName, hsub]
  refine ⟨?_, hneg2, by simp [buildAndRun, hneg2], ?_⟩
  · simp [negotiate, negStep, credentialOk, makeServerSslConfig,
      effectiveTargetName, hmis]
  · intro cc1 cc2 heq
    simp [negotiate, negStep, credentialOk, makeServerSslConfig,
      effectiveTargetName, heq]

/-- Witness for C2: server certificate for `goodsrv` addressed as
`localhost`, with and without the override, and two client
configurations differing in certificate and key. -/
theorem claim_C2_server_tls_witness :
    (negotiate
        (makeServerSslConfig "skey"
          { subject := "goodsrv", issuer := "root" } false)
        { target_name_override := "", client_cert := none,
          client_key := "" } (Transport.tcp "localhost") =
      NegState.failed NegError.authError) ∧
    (negotiate
        (makeServerSslConfig "skey"
          { subject := "goodsrv", issuer := "root" } false)
        { target_name_override := "goodsrv", client_cert := none,
          client_key := "" } (Transport.tcp "localhost") =
      NegState.ready) ∧
    (buildAndRun eosOnlyHub () (fun _ => 0) 3
        (makeServerSslConfig "skey"
          { subject := "goodsrv", issuer := "root" } false)
        { target_name_override := "goodsrv", client_cert := none,
          client_key := "" } (Transport.tcp "localhost") =
      Except.ok (randomGenerate eosOnlyHub () (fun _ => 0) 3 [])) ∧
    (∀ cc1 cc2 : ClientAuthCfg,
      cc1.target_name_override = cc2.target_name_override →
      negotiate
          (makeServerSslConfig "skey"
            { subject := "goodsrv", issuer := "root" } false) cc1
          (Transport.tcp "localhost") =
        negotiate
          (makeServerSslConfig "skey"
            { subject := "goodsrv", issuer := "root" } false) cc2
          (Transport.tcp "localhost")) :=
  claim_C2_server_tls "skey" "localhost"
    { subject := "goodsrv", issuer := "root" } eosOnlyHub ()
    (fun _ => 0) 3 (by decide) (by decide)

/-- C3 as stated is refuted by the degenerate draw the spec itself
allows: with insecure credentials on both sides the channel does reach
ready, but when the very first draw from the hub distribution is the
end-of-sequence symbol, `RandGen` on the empty context returns the
empty string. -/
theorem claim_C3_insecure_counterexample :
    negotiate insecureServerAuth emptyClientAuth
        (Transport.tcp "localhost:50051") = NegState.ready ∧
    buildAndRun eosOnlyHub () (fun _ => 0) 100 insecureServerAuth
        emptyClientAuth (Transport.tcp "localhost:50051") =
      Except.ok [] ∧
    ([] : List Char).length = 0 :=
  ⟨rfl, rfl, rfl⟩

/-- C3, amended: with insecure credentials on both server and client,
over TCP or a local socket, negotiation always reaches ready and the
`RandGen` request with the empty context is served; the generated
string is non-empty whenever the first draw from the distribution is a
character rather than end-of-sequence (the high-probability case for an
alphabet of size above one). -/
theorem claim_C3_insecure_ready {S : Type} (M : HubModel S) (s0 : S)
    (rs : Nat → ℚ) (cap : Nat) (sa : ServerAuthCfg)
    (ca : ClientAuthCfg) (t : Transport)
    (hins : sa.credential_type = CredentialType.insecure) :
    negotiate sa ca t = NegState.ready ∧
    buildAndRun M s0 rs cap sa ca t =
      Except.ok (randomGenerate M s0 rs cap []) ∧
    (∀ c : Char, drawFrom (rs 0) (M.dist s0 []) = some (Sym.chr c) →
      0 < cap → randomGenerate M s0 rs cap [] ≠ []) := by
  have hneg : negotiate sa ca t = NegState.ready := by
    simp [negotiate, negStep, credentialOk, hins]
  refine ⟨hneg, by simp [buildAndRun, hneg], ?_⟩
  intro c hdraw hcap
  match cap, hcap with
  | cap + 1, _ =>
    simp [randomGenerate, randGenLoop, hdraw]

/-- Witness for C3 (amended): a two-character uniform hub over an
insecure channel generates a non-empty string. -/
theorem claim_C3_insecure_ready_witness :
    negotiate insecureServerAuth emptyClientAuth
        (Transport.uds "/tmp/auth_end2end_test.sock") =
      NegState.ready ∧
    buildAndRun (uniformBackend [Char.ofNat 97, Char.ofNat 98]) ()
        (fun _ => 1/2) 4 insecureServerAuth emptyClientAuth
        (Transport.uds "/tmp/auth_end2end_test.sock") =
      Except.ok (randomGenerate
        (uniformBackend [Char.ofNat 97, Char.ofNat 98]) ()
        (fun _ => 1/2) 4 []) ∧
    (∀ c : Char,
      drawFrom ((fun _ : Nat => (1 : ℚ)/2) 0)
          ((uniformBackend [Char.ofNat 97, Char.ofNat 98]).dist () []) =
        some (Sym.chr c) →
      0 < 4 →
      randomGenerate (uniformBackend [Char.ofNat 97, Char.ofNat 98]) ()
        (fun _ => 1/2) 4 [] ≠ []) :=
  claim_C3_insecure_ready
    (uniformBackend [Char.ofNat 97, Char.ofNat 98]) () (fun _ => 1/2) 4
    insecureServerAuth emptyClientAuth
    (Transport.uds "/tmp/auth_end2end_test.sock") rfl

/-- C10: a `SIMPLE_CHAR_BIGRAM` configuration with no model file and no
vocabulary file is accepted — construction succeeds rather than failing
with an input/output or configuration error — falling back to the
uniform backend, against which all four protocol operations work: the
distribution is non-degenerate, top-k sampling succeeds, random
generation runs within its cap, and corpus scoring of a non-empty text
succeeds. -/
theorem claim_C10_bigram_no_files (alphabet : List Char)
    (loadData : String → String → Option (HubModel Unit)) (k cap : Nat)
    (rs : Nat → ℚ) (r : ℚ) (neglog : ℚ → ℚ) (ctx text : List Char)
    (ha : alphabet ≠ []) (hk : 0 < k) (ht : text ≠ []) :
    loadSimpleCharBigram alphabet loadData
        { model_file := "", vocabulary_file := "" } =
      Except.ok (uniformBackend alphabet) ∧
    (uniformBackend alphabet).dist () ctx ≠ [] ∧
    (∃ c, oneKbestSample k
        (charProbs ((uniformBackend alphabet).dist () ctx)) r =
      some c) ∧
    (randomGenerate (uniformBackend alphabet) () rs cap []).length ≤
      cap ∧
    (∃ q, calcBitsPerCharacter (uniformBackend alphabet) neglog ()
        (some text) = Except.ok q) := by
  refine ⟨by simp [loadSimpleCharBigram], ?_, ?_, ?_, ?_⟩
  · simp [uniformBackend, uniformDist]
  · refine oneKbestSample_exists r hk ?_
    match alphabet, ha with
    | a :: rest, _ => simp [uniformBackend, uniformDist, charProbs]
  · exact (claim_C7_random_generate_terminates (uniformBackend alphabet)
      () rs cap []).1
  · match text, ht with
    | c :: rest, _ =>
      exact ⟨_, (claim_C6_calc_bits_per_character (uniformBackend alphabet)
        neglog () (c :: rest) (by simp)).1⟩

/-- Witness for C10 over a two-character alphabet. -/
theorem claim_C10_bigram_no_files_witness :
    loadSimpleCharBigram [Char.ofNat 97, Char.ofNat 98] (fun _ _ => none)
        { model_file := "", vocabulary_file := "" } =
      Except.ok (uniformBackend [Char.ofNat 97, Char.ofNat 98]) ∧
    (uniformBackend [Char.ofNat 97, Char.ofNat 98]).dist () [] ≠ [] ∧
    (∃ c, oneKbestSample 2
        (charProbs ((uniformBackend [Char.ofNat 97, Char.ofNat 98]).dist
          () [])) 0 = some c) ∧
    (randomGenerate (uniformBackend [Char.ofNat 97, Char.ofNat 98]) ()
        (fun _ => 0) 7 []).length ≤ 7 ∧
    (∃ q, calcBitsPerCharacter
        (uniformBackend [Char.ofNat 97, Char.ofNat 98]) id ()
        (some [Char.ofNat 97]) = Except.ok q) :=
  claim_C10_bigram_no_files [Char.ofNat 97, Char.ofNat 98]
    (fun _ _ => none) 2 7 (fun _ => 0) 0 id [] [Char.ofNat 97]
    (by decide) (by decide) (by decide)

end Mozolm
